import Mathlib

/-!
# Verification of the Cognos-vs-PowerBI validator core (`src/model.py`)

Shallow embedding of the reconciliation core of the repository:

* `strip_leading_zeros`        (model.py lines 10-13) — the Value Normalizer;
* `generate_validation_report` (model.py lines 57-109) — dimension selection,
  in-place `fillna('NAN')` on dimension columns, groupby-sum aggregation,
  unified-key construction, per-measure Source/Target/Diff columns and
  presence classification;
* `generate_diff_checker`      (model.py lines 124-138) — the Diff Summary.

Modelling conventions:

* A cell (`Value`) is a text value, a numeric value, or missing (pandas
  `NaN`/`None`).  Numeric cells are modelled over `Int`; none of the verified
  properties depends on fractional magnitudes, only on exact sums and
  differences.
* A `DataFrame` is an ordered list of named, dtyped columns plus a list of
  rows (each row a list of cells aligned positionally with the columns).
  Column names are assumed unique per frame, as pandas effectively requires
  for the code under study.
* Python string operations (`strip`, `lstrip("0")`, `isdigit`, `lower`,
  `upper`, `in`, `endswith`) are re-implemented over `String.data`
  (`List Char`).  We model the ASCII fragment of Python's semantics: the
  digit/whitespace/case tables are the ASCII ones.
* Python's `dict(zip(keys, vals))` keeps the *last* binding of a duplicated
  key; `dget` below searches the tail first to reproduce that.
* In-place mutation (`cognos_df[dims] = cognos_df[dims].fillna('NAN')`)
  is modelled by explicit state passing: the embedded
  `generate_validation_report` returns the post-call states of both input
  frames (`cognosAfter`, `pbiAfter`) alongside its Python return value.
* `pandas.groupby` sorts group keys; we keep groups in first-occurrence
  order instead.  Downstream consumption is order-independent except via
  the last-binding-wins dictionaries, which are stated relative to the
  aggregate's own row order, so no verified property is affected.
-/

/-- A cell value: text, numeric, or missing (pandas `NaN`). -/
inductive Value where
  | vStr (s : String)
  | vNum (n : Int)
  | vNull
  deriving DecidableEq, Repr

instance : Inhabited Value := ⟨Value.vNull⟩

/-- Column dtype as far as the code inspects it: `object` (textual), a
NumPy-numeric dtype, or anything else (datetime, bool, ...). -/
inductive Dtype where
  | obj
  | num
  | other
  deriving DecidableEq, Repr

/-- A pandas DataFrame: ordered named+dtyped columns and positional rows. -/
structure DataFrame where
  cols : List (String × Dtype)
  rows : List (List Value)
  deriving DecidableEq, Repr

/-! ## Python string primitives (ASCII fragment), over `String.data` -/

/-- Python `str.strip()` (ASCII whitespace). -/
def pyStrip (s : String) : String :=
  ⟨((s.data.dropWhile Char.isWhitespace).reverse.dropWhile Char.isWhitespace).reverse⟩

/-- Python `str.lstrip("0")`. -/
def pyLstripZeros (s : String) : String :=
  ⟨s.data.dropWhile (fun c => c = '0')⟩

/-- Python `str.isdigit()` (ASCII digits; empty string is *not* a digit
string). -/
def pyIsdigit (s : String) : Bool :=
  !s.data.isEmpty && s.data.all Char.isDigit

/-- Decimal value of an all-digit character list. -/
def digitsToNat (cs : List Char) : Nat :=
  cs.foldl (fun acc c => acc * 10 + (c.toNat - '0'.toNat)) 0

/-- Python `int(s)`: tolerates surrounding whitespace, requires a non-empty
digit string, raises (`none`) otherwise.  (A sign prefix is unreachable from
the call site in `strip_leading_zeros`, so it is not modelled.) -/
def pyInt (s : String) : Option Int :=
  let t := pyStrip s
  if !t.data.isEmpty && t.data.all Char.isDigit then
    some (Int.ofNat (digitsToNat t.data))
  else
    none

/-- Python `str.lower()` (ASCII). -/
def pyLower (s : String) : String := ⟨s.data.map Char.toLower⟩

/-- Python `str.upper()` (ASCII). -/
def pyUpper (s : String) : String := ⟨s.data.map Char.toUpper⟩

/-- Python substring test `pat in s`. -/
def pyContains (s pat : String) : Bool :=
  (List.range (s.data.length + 1)).any (fun i => pat.data.isPrefixOf (s.data.drop i))

/-- Python `s.endswith(pat)`. -/
def pyEndswith (s pat : String) : Bool :=
  pat.data.isSuffixOf s.data

/-!
## Value Normalizer (`strip_leading_zeros`, model.py lines 10-13)

```python
def strip_leading_zeros(val):
    if isinstance(val, str) and val.strip().lstrip("0").isdigit():
        return int(val.lstrip("0") or "0")
    return val
```
-/

/-- `strip_leading_zeros` from model.py.  The `or "0"` models Python's
falsiness of the empty string.  The `none` fallback of `pyInt` is
unreachable: the guard guarantees the argument parses (Python would raise
otherwise). -/
def strip_leading_zeros (val : Value) : Value :=
  match val with
  | .vStr s =>
    if pyIsdigit (pyLstripZeros (pyStrip s)) then
      let u := pyLstripZeros s
      let arg := if u.data.isEmpty then "0" else u
      match pyInt arg with
      | some n => .vNum n
      | none => .vStr s
    else
      .vStr s
  | v => v

example : strip_leading_zeros (.vStr "00045") = .vNum 45 := by decide
example : strip_leading_zeros (.vStr "000") = .vStr "000" := by decide
example : strip_leading_zeros (.vStr "12A3") = .vStr "12A3" := by decide

/-! ## DataFrame helpers -/

/-- The ordered column names of a frame (`df.columns`). -/
def colNames (df : DataFrame) : List String := df.cols.map Prod.fst

/-- `df[c].dtype`.  Only ever applied to columns present in the frame; the
`other` default is dead code for such columns. -/
def dtypeOf (df : DataFrame) (c : String) : Dtype :=
  (df.cols.lookup c).getD Dtype.other

/-- The cell of row `r` (a row of `df`) in column `c`.  Missing positions
read as `NaN`, like pandas row alignment. -/
def cellVal (df : DataFrame) (r : List Value) (c : String) : Value :=
  match (colNames df).findIdx? (fun n => n = c) with
  | some i => r.getD i .vNull
  | none => .vNull

/-!
## Dimension Selector (model.py lines 58-72)

```python
dims = [col for col in cognos_df.columns if col in pbi_df.columns and
        (cognos_df[col].dtype == 'object' or '_id' in col.lower() or '_key' in col.lower() or
         '_ID' in col or '_KEY' in col)]
if not dims:
    dims = [col for col in cognos_df.columns if col in pbi_df.columns and not np.issubdtype(cognos_df[col].dtype, np.number)]
if not dims:
    dims = [col for col in cognos_df.columns if col in pbi_df.columns]
if not dims:
    raise ValueError("No common columns found to use as dimensions.")
```
-/

/-- The shared columns, in Cognos column order (the third fallback). -/
def sharedCols (cognos pbi : DataFrame) : List String :=
  (colNames cognos).filter (fun c => decide (c ∈ colNames pbi))

/-- First candidate set: shared columns that are `object`-typed in the
Cognos frame, or whose name contains `_id`/`_key` case-insensitively.
The `'_ID' in col or '_KEY' in col` terms of the source are kept although
they are subsumed by the lowercased tests. -/
def dimCandidate1 (cognos pbi : DataFrame) : List String :=
  (colNames cognos).filter (fun c =>
    decide (c ∈ colNames pbi) &&
      (decide (dtypeOf cognos c = .obj) || pyContains (pyLower c) "_id" ||
       pyContains (pyLower c) "_key" || pyContains c "_ID" || pyContains c "_KEY"))

/-- Second candidate set: shared columns not numeric-typed in the Cognos
frame. -/
def dimCandidate2 (cognos pbi : DataFrame) : List String :=
  (colNames cognos).filter (fun c =>
    decide (c ∈ colNames pbi) && decide (¬ dtypeOf cognos c = .num))

/-- The ordered-fallback dimension selection; `[]` exactly when the column
intersection is empty (the caller then raises). -/
def selectDims (cognos pbi : DataFrame) : List String :=
  let d1 := dimCandidate1 cognos pbi
  if d1 ≠ [] then d1
  else
    let d2 := dimCandidate2 cognos pbi
    if d2 ≠ [] then d2
    else sharedCols cognos pbi

/-!
## In-place fillna on dimension columns (model.py lines 74-75)

`cognos_df[dims] = cognos_df[dims].fillna('NAN')` mutates the caller's
frame; the post-state is the frame below.
-/

/-- Replace `NaN` by the string `'NAN'` in every dimension-column cell. -/
def fillnaDims (df : DataFrame) (dims : List String) : DataFrame :=
  { df with
    rows := df.rows.map (fun r =>
      List.zipWith (fun (c : String × Dtype) v =>
        if c.1 ∈ dims ∧ v = Value.vNull then Value.vStr "NAN" else v) df.cols r) }

/-!
## Measure Set (model.py lines 77-79)

`all_measures = list(set(cognos_measures) & set(pbi_measures))` — a Python
set intersection whose order is unspecified; we keep Cognos column order.
Column names are assumed unique per frame, so no deduplication is needed.
-/

/-- Numeric non-dimension columns of one frame. -/
def numericMeasures (df : DataFrame) (dims : List String) : List String :=
  (colNames df).filter (fun c => decide (c ∉ dims) && decide (dtypeOf df c = .num))

/-- The common measures of both frames. -/
def allMeasures (cognos pbi : DataFrame) (dims : List String) : List String :=
  (numericMeasures cognos dims).filter (fun c => decide (c ∈ numericMeasures pbi dims))

/-!
## Aggregator (model.py lines 81-85)

`df.groupby(dims)[all_measures].sum().reset_index()` plus the
`unique_key` column `df_agg[dims].astype(str).agg('-'.join, axis=1).str.upper()`.
-/

/-- `str(value)` as used by `astype(str)`. -/
def pyStr : Value → String
  | .vStr s => s
  | .vNum n => toString n
  | .vNull => "nan"

/-- The composite key of a dimension-value tuple: values stringified,
joined with `-`, uppercased. -/
def uniqueKey (g : List Value) : String :=
  pyUpper (String.intercalate "-" (g.map pyStr))

/-- The tuple of dimension values of one row. -/
def dimTuple (df : DataFrame) (r : List Value) (dims : List String) : List Value :=
  dims.map (fun d => cellVal df r d)

/-- Summed measure cells treat missing/non-numeric cells as 0
(`groupby(...).sum()` skips `NaN`). -/
def toNum : Value → Int
  | .vNum n => n
  | _ => 0

/-- The summed measure `m` over the group of rows with dimension tuple `g`. -/
def aggMeasure (df : DataFrame) (dims : List String) (m : String) (g : List Value) : Int :=
  ((df.rows.filter (fun r => decide (dimTuple df r dims = g))).map
    (fun r => toNum (cellVal df r m))).sum

/-- The distinct dimension tuples, in first-occurrence order (pandas sorts
them; see the header note — no verified property depends on the order). -/
def groupTuples (df : DataFrame) (dims : List String) : List (List Value) :=
  (df.rows.map (fun r => dimTuple df r dims)).dedup

/-- One aggregated row: the group's dimension values, its summed measures in
measure order, and its `unique_key`. -/
structure AggRow where
  dvals : List Value
  mvals : List Int
  key : String
  deriving DecidableEq, Repr

instance : Inhabited AggRow := ⟨⟨[], [], ""⟩⟩

/-- The aggregated table of one frame. -/
def aggregate (df : DataFrame) (dims measures : List String) : List AggRow :=
  (groupTuples df dims).map (fun g =>
    { dvals := g
      mvals := measures.map (fun m => aggMeasure df dims m g)
      key := uniqueKey g })

/-!
## Key Unifier and Reconciler (model.py lines 84-107)
-/

/-- The `unique_key` column of an aggregate. -/
def aggKeys (t : List AggRow) : List String := t.map AggRow.key

/-- `dict(zip(t['unique_key'], t[...]))` as an association list; a Python
dict keeps the *last* binding of a duplicated key, so lookup searches the
tail first. -/
def dget {α : Type} (ps : List (String × α)) (k : String) : Option α :=
  match ps with
  | [] => none
  | (k', v) :: rest =>
    match dget rest k with
    | some w => some w
    | none => if k' = k then some v else none

/-- The key/value pairs extracted from an aggregate by one extractor. -/
def dictOf {α : Type} (t : List AggRow) (f : AggRow → α) : List (String × α) :=
  t.map (fun r => (r.key, f r))

/-- `list(set(cognos_keys) | set(pbi_keys))`: the unified key space.  A
Python set's iteration order is unspecified; we keep first-occurrence
order.  Deduplicated by construction. -/
def unifiedKeys (cogA pbiA : List AggRow) : List String :=
  (aggKeys cogA ++ aggKeys pbiA).dedup

/-- The stored value of dimension number `i` for key `k`: the Cognos-side
dict lookup, `fillna`-ed with the PBI-side lookup (model.py lines 89-91). -/
def dimValFor (cogA pbiA : List AggRow) (i : Nat) (k : String) : Option Value :=
  match dget (dictOf cogA (fun r => r.dvals.getD i .vNull)) k with
  | some v => some v
  | none => dget (dictOf pbiA (fun r => r.dvals.getD i .vNull)) k

/-- Presence classification (model.py lines 93-97). -/
def presenceOf (cogA pbiA : List AggRow) (k : String) : String :=
  if k ∈ aggKeys cogA ∧ k ∈ aggKeys pbiA then "Present in Both"
  else if k ∈ aggKeys cogA then "Present in Cognos"
  else "Present in PBI"

/-- The three stored cells of one measure for one key: the raw side lookups
(`none` = blank/NaN when the key is absent from that side) and the diff
`pbi.fillna(0) - cognos.fillna(0)` (model.py lines 99-102). -/
structure MeasureCells where
  cog : Option Int
  pbi : Option Int
  diff : Int
  deriving DecidableEq, Repr

instance : Inhabited MeasureCells := ⟨⟨none, none, 0⟩⟩

/-- The measure cells of measure number `i` for key `k`. -/
def measureCells (cogA pbiA : List AggRow) (i : Nat) (k : String) : MeasureCells :=
  { cog := dget (dictOf cogA (fun r => r.mvals.getD i 0)) k
    pbi := dget (dictOf pbiA (fun r => r.mvals.getD i 0)) k
    diff := (dget (dictOf pbiA (fun r => r.mvals.getD i 0)) k).getD 0 -
            (dget (dictOf cogA (fun r => r.mvals.getD i 0)) k).getD 0 }

/-- One row of the validation report. -/
structure ReportRow where
  key : String
  dvals : List (Option Value)
  presence : String
  meas : List MeasureCells
  deriving DecidableEq, Repr

instance : Inhabited ReportRow := ⟨⟨"", [], "", []⟩⟩

/-- The validation report: its dimension and measure column names and its
rows, one per unified key. -/
structure Report where
  dims : List String
  measures : List String
  rows : List ReportRow
  deriving DecidableEq, Repr

instance : Inhabited Report := ⟨⟨[], [], []⟩⟩

/-- The report row built for one unified key. -/
def reportRowFor (cogA pbiA : List AggRow) (dims measures : List String)
    (k : String) : ReportRow :=
  { key := k
    dvals := (List.range dims.length).map (fun i => dimValFor cogA pbiA i k)
    presence := presenceOf cogA pbiA k
    meas := (List.range measures.length).map (fun i => measureCells cogA pbiA i k) }

/-- The reconciler: one row per unified key (model.py lines 87-102). -/
def buildReport (cogA pbiA : List AggRow) (dims measures : List String) : Report :=
  { dims := dims
    measures := measures
    rows := (unifiedKeys cogA pbiA).map (reportRowFor cogA pbiA dims measures) }

/-- `column_order` (model.py lines 104-106). -/
def reportColumns (dims measures : List String) : List String :=
  ["unique_key"] ++ dims ++ ["presence"] ++
    measures.flatMap (fun m => [m ++ "_Cognos", m ++ "_PBI", m ++ "_Diff"])

/-!
## `generate_validation_report` (model.py lines 57-109)
-/

/-- The value returned by a successful call, together with the post-call
states of the two (mutated-in-place) input frames. -/
structure ValidationOutput where
  report : Report
  cognosAgg : List AggRow
  pbiAgg : List AggRow
  dims : List String
  cognosAfter : DataFrame
  pbiAfter : DataFrame
  deriving DecidableEq, Repr

instance : Inhabited ValidationOutput :=
  ⟨⟨default, [], [], [], ⟨[], []⟩, ⟨[], []⟩⟩⟩

/-- `generate_validation_report`.  The `ValueError` of model.py line 70 (the
spec's `NoCommonColumnsError`) is the `Except.error` case; it aborts before
the in-place `fillna` and before any aggregation. -/
def generate_validation_report (cognos pbi : DataFrame) :
    Except String ValidationOutput :=
  let dims := selectDims cognos pbi
  if dims = [] then
    .error "No common columns found to use as dimensions."
  else
    let cognos2 := fillnaDims cognos dims
    let pbi2 := fillnaDims pbi dims
    let measures := allMeasures cognos2 pbi2 dims
    let cogA := aggregate cognos2 dims measures
    let pbiA := aggregate pbi2 dims measures
    .ok { report := buildReport cogA pbiA dims measures
          cognosAgg := cogA
          pbiAgg := pbiA
          dims := dims
          cognosAfter := cognos2
          pbiAfter := pbi2 }

/-!
## Summary Builder (`generate_diff_checker`, model.py lines 124-138)

`diff_columns = [col for col in validation_report.columns if col.endswith('_Diff')]`
works on *column names*; a DataFrame maps each name to the column written
by the *last* assignment with that name, so name resolution searches the
assignment list backwards.  (Input column names are assumed not to collide
with the reserved names `unique_key`/`presence`; a dimension named like a
measure-generated column is modelled faithfully.)
-/

/-- A logical column of the validation report. -/
inductive ColRef where
  | ckey
  | cdim (i : Nat)
  | cpres
  | cmcog (i : Nat)
  | cmpbi (i : Nat)
  | cmdiff (i : Nat)
  deriving DecidableEq, Repr

/-- The column assignments of the report builder, in program order
(model.py lines 87-101). -/
def assignmentList (dims measures : List String) : List (String × ColRef) :=
  [("unique_key", ColRef.ckey)] ++
    dims.enum.map (fun p => (p.2, ColRef.cdim p.1)) ++
    [("presence", ColRef.cpres)] ++
    measures.enum.flatMap (fun p =>
      [(p.2 ++ "_Cognos", ColRef.cmcog p.1), (p.2 ++ "_PBI", ColRef.cmpbi p.1),
       (p.2 ++ "_Diff", ColRef.cmdiff p.1)])

/-- Resolve a column name to the logical column of its last assignment. -/
def resolveCol (dims measures : List String) (c : String) : Option ColRef :=
  (assignmentList dims measures).reverse.lookup c

/-- The cell values of one logical column, one per report row. -/
def refValues (rep : Report) : ColRef → List Value
  | .ckey => rep.rows.map (fun r => .vStr r.key)
  | .cdim i => rep.rows.map (fun r => (r.dvals.getD i none).getD .vNull)
  | .cpres => rep.rows.map (fun r => .vStr r.presence)
  | .cmcog i => rep.rows.map (fun r =>
      match (r.meas.getD i default).cog with
      | some n => .vNum n
      | none => .vNull)
  | .cmpbi i => rep.rows.map (fun r =>
      match (r.meas.getD i default).pbi with
      | some n => .vNum n
      | none => .vNull)
  | .cmdiff i => rep.rows.map (fun r => .vNum (r.meas.getD i default).diff)

/-- `validation_report[c]` as a list of cells.  The `[]` fallback is dead
code: `generate_diff_checker` only reads names from `reportColumns`. -/
def colValues (rep : Report) (c : String) : List Value :=
  match resolveCol rep.dims rep.measures c with
  | some ref => refValues rep ref
  | none => []

/-- pandas `Series.__add__` on two cells: numbers add, strings concatenate,
a mixed pair raises (`none`). -/
def pyAdd : Value → Value → Option Value
  | .vNum a, .vNum b => some (.vNum (a + b))
  | .vStr a, .vStr b => some (.vStr (a ++ b))
  | _, _ => none

/-- pandas `Series.sum()`: `NaN` cells are skipped, an empty column sums to
numeric 0, and the remaining cells are combined with `+`. -/
def pySum (vs : List Value) : Option Value :=
  match vs.filter (fun v => decide (v ≠ Value.vNull)) with
  | [] => some (.vNum 0)
  | v :: rest => rest.foldl (fun acc w => acc.bind (fun a => pyAdd a w)) (some v)

/-- `generate_diff_checker`: one `(name, sum)` row per `_Diff`-suffixed
column of the report, then the completeness row.  `none` models a pandas
`TypeError` while summing a mixed column (never hit by the source's
realistic inputs). -/
def generate_diff_checker (rep : Report) : Option (List (String × Value)) :=
  let diffCols := (reportColumns rep.dims rep.measures).filter
    (fun c => pyEndswith c "_Diff")
  (diffCols.mapM (fun c => (pySum (colValues rep c)).map (fun s => (c, s)))).map
    (fun sums =>
      sums ++ [("All rows present in both",
        .vStr (if rep.rows.all (fun r => r.presence = "Present in Both") then "Yes"
               else "No"))])

/-! ## Helper lemmas about the dictionary model -/

theorem dget_eq_none_iff {α : Type} (ps : List (String × α)) (k : String) :
    dget ps k = none ↔ k ∉ ps.map Prod.fst := by
  induction ps with
  | nil => simp [dget]
  | cons p rest ih =>
    obtain ⟨k', v⟩ := p
    simp only [List.map_cons, List.mem_cons]
    rw [dget]
    cases h : dget rest k with
    | some w =>
      have hk : k ∈ rest.map Prod.fst := by
        by_contra hc
        rw [← ih] at hc
        rw [h] at hc
        cases hc
      simp [hk]
    | none =>
      have hk : k ∉ rest.map Prod.fst := ih.mp h
      by_cases he : k' = k
      · subst he
        simp
      · have : ¬ k = k' := fun hkk => he hkk.symm
        simp [he, this, hk]

theorem dget_isSome_iff {α : Type} (ps : List (String × α)) (k : String) :
    (∃ v, dget ps k = some v) ↔ k ∈ ps.map Prod.fst := by
  rw [← not_iff_not, ← dget_eq_none_iff]
  constructor
  · intro h
    cases hd : dget ps k with
    | some v => exact absurd ⟨v, hd⟩ h
    | none => rfl
  · intro h hc
    obtain ⟨v, hv⟩ := hc
    rw [h] at hv
    cases hv

theorem dictOf_map_fst {α : Type} (t : List AggRow) (f : AggRow → α) :
    (dictOf t f).map Prod.fst = aggKeys t := by
  simp [dictOf, aggKeys, List.map_map]

theorem dget_append_of_isSome {α : Type} (a b : List (String × α)) (k : String) (w : α)
    (h : dget b k = some w) : dget (a ++ b) k = some w := by
  induction a with
  | nil => simpa using h
  | cons p rest ih =>
    obtain ⟨k', v⟩ := p
    rw [List.cons_append, dget, ih]

theorem dget_append_of_eq_none {α : Type} (a b : List (String × α)) (k : String)
    (h : dget b k = none) : dget (a ++ b) k = dget a k := by
  induction a with
  | nil => simpa using h
  | cons p rest ih =>
    obtain ⟨k', v⟩ := p
    rw [List.cons_append, dget, ih, dget]

theorem dget_middle_skip {α : Type} (a ps : List (String × α)) (k0 k : String) (v : α)
    (h : k0 ∈ ps.map Prod.fst) :
    dget (a ++ (k0, v) :: ps) k = dget (a ++ ps) k := by
  induction a with
  | nil =>
    simp only [List.nil_append]
    rw [dget]
    cases hp : dget ps k with
    | some w => rfl
    | none =>
      have hnk : k ∉ ps.map Prod.fst := (dget_eq_none_iff ps k).mp hp
      have hne : ¬ k0 = k := fun he => hnk (he ▸ h)
      simp [hne]
  | cons p rest ih =>
    obtain ⟨k', v'⟩ := p
    rw [List.cons_append, dget, ih, List.cons_append, dget]

theorem dget_last_wins {α : Type} (a ps : List (String × α)) (k : String) (v : α)
    (h : k ∉ ps.map Prod.fst) :
    dget (a ++ (k, v) :: ps) k = some v := by
  apply dget_append_of_isSome
  rw [dget, (dget_eq_none_iff ps k).mpr h]
  simp

/-! ## Helper lemmas about the Dimension Selector -/

theorem mem_sharedCols_of_mem_dimCandidate1 (cognos pbi : DataFrame) (c : String)
    (h : c ∈ dimCandidate1 cognos pbi) : c ∈ sharedCols cognos pbi := by
  rw [dimCandidate1, List.mem_filter] at h
  obtain ⟨h1, h2⟩ := h
  rw [Bool.and_eq_true, decide_eq_true_iff] at h2
  rw [sharedCols, List.mem_filter]
  exact ⟨h1, decide_eq_true h2.1⟩

theorem mem_sharedCols_of_mem_dimCandidate2 (cognos pbi : DataFrame) (c : String)
    (h : c ∈ dimCandidate2 cognos pbi) : c ∈ sharedCols cognos pbi := by
  rw [dimCandidate2, List.mem_filter] at h
  obtain ⟨h1, h2⟩ := h
  rw [Bool.and_eq_true, decide_eq_true_iff] at h2
  rw [sharedCols, List.mem_filter]
  exact ⟨h1, decide_eq_true h2.1⟩

theorem selectDims_eq_nil_iff (cognos pbi : DataFrame) :
    selectDims cognos pbi = [] ↔ sharedCols cognos pbi = [] := by
  constructor
  · intro h
    rw [selectDims] at h
    by_cases h1 : dimCandidate1 cognos pbi = []
    · by_cases h2 : dimCandidate2 cognos pbi = []
      · simpa [h1, h2] using h
      · simp [h1, h2] at h
    · simp [h1] at h
  · intro h
    have h1 : dimCandidate1 cognos pbi = [] := by
      rw [List.eq_nil_iff_forall_not_mem]
      intro c hc
      have := mem_sharedCols_of_mem_dimCandidate1 cognos pbi c hc
      rw [h] at this
      cases this
    have h2 : dimCandidate2 cognos pbi = [] := by
      rw [List.eq_nil_iff_forall_not_mem]
      intro c hc
      have := mem_sharedCols_of_mem_dimCandidate2 cognos pbi c hc
      rw [h] at this
      cases this
    simp [selectDims, h1, h2, h]

/-- An uppercase occurrence of a pattern survives lowercasing: if `pat`
occurs in `c` and `pat` lowercases to `patl`, then `patl` occurs in
`c.lower()`. -/
theorem pyContains_pyLower_of_pyContains (c pat patl : String)
    (hp : pat.data.map Char.toLower = patl.data)
    (h : pyContains c pat = true) : pyContains (pyLower c) patl = true := by
  rw [pyContains, List.any_eq_true] at h
  obtain ⟨i, hi, hpre⟩ := h
  rw [pyContains, List.any_eq_true]
  refine ⟨i, ?_, ?_⟩
  · simpa [pyLower] using hi
  · rw [List.isPrefixOf_iff_prefix] at hpre ⊢
    have hdata : (pyLower c).data = c.data.map Char.toLower := rfl
    rw [hdata, ← List.map_drop, ← hp]
    exact hpre.map Char.toLower

/-! ## Example frames (used by witnesses and counterexamples) -/

/-- The spec's end-to-end example, SOURCE side. -/
def exCognos : DataFrame :=
  ⟨[("Region", .obj), ("Sales", .num)],
   [[.vStr "East", .vNum 100], [.vStr "West", .vNum 50]]⟩

/-- The spec's end-to-end example, TARGET side. -/
def exPbi : DataFrame :=
  ⟨[("Region", .obj), ("Sales", .num)],
   [[.vStr "east", .vNum 90], [.vStr "North", .vNum 20]]⟩

/-- The successful output of the pipeline on the example frames. -/
def exOut : ValidationOutput :=
  (generate_validation_report exCognos exPbi).toOption.getD default

/-! ## C2 — Value Normalizer -/

/-- C2: the claim states that a text string of only digits with at least one
leading zero always maps to the integer with the zeros removed, in
particular `"000" ↦ 0`.  The code disagrees on all-zero strings: after
`"000".strip().lstrip("0")` the guard tests `"".isdigit()`, which is
`False`, so `"000"` is returned unchanged; the `or "0"` fallback written
precisely for this case is unreachable.  `"00045" ↦ 45` and `"12A3"`
unchanged do hold. -/
theorem C2_strip_leading_zeros_bug :
    strip_leading_zeros (.vStr "00045") = .vNum 45 ∧
    strip_leading_zeros (.vStr "12A3") = .vStr "12A3" ∧
    strip_leading_zeros (.vStr "000") = .vStr "000" ∧
    strip_leading_zeros (.vStr "000") ≠ .vNum 0 ∧
    strip_leading_zeros (.vStr "0") = .vStr "0" := by
  refine ⟨by decide, by decide, by decide, by decide, by decide⟩

/-! ## C3 — Dimension Selector -/

/-- C3: the Dimension Selector is a deterministic ordered fallback whose
first non-empty candidate wins: first the shared columns that are
`object`-typed (in the source frame) or whose name contains `_id`/`_key`
case-insensitively (first conjunct: the source's redundant `'_ID' in col`
/ `'_KEY' in col` tests change nothing); if empty, the shared non-numeric
columns; if still empty, all shared columns; and with a non-empty column
intersection the result is non-empty. -/
theorem C3_dimension_selector_fallback (cognos pbi : DataFrame)
    (h : sharedCols cognos pbi ≠ []) :
    (dimCandidate1 cognos pbi =
      (colNames cognos).filter (fun c => decide (c ∈ colNames pbi) &&
        (decide (dtypeOf cognos c = .obj) || pyContains (pyLower c) "_id" ||
         pyContains (pyLower c) "_key"))) ∧
    (dimCandidate1 cognos pbi ≠ [] →
      selectDims cognos pbi = dimCandidate1 cognos pbi) ∧
    (dimCandidate1 cognos pbi = [] → dimCandidate2 cognos pbi ≠ [] →
      selectDims cognos pbi = dimCandidate2 cognos pbi) ∧
    (dimCandidate1 cognos pbi = [] → dimCandidate2 cognos pbi = [] →
      selectDims cognos pbi = sharedCols cognos pbi) ∧
    selectDims cognos pbi ≠ [] := by
  have hc1 : dimCandidate1 cognos pbi =
      (colNames cognos).filter (fun c => decide (c ∈ colNames pbi) &&
        (decide (dtypeOf cognos c = .obj) || pyContains (pyLower c) "_id" ||
         pyContains (pyLower c) "_key")) := by
    rw [dimCandidate1]
    apply List.filter_congr
    intro c _
    have h1 := pyContains_pyLower_of_pyContains c "_ID" "_id" (by decide)
    have h2 := pyContains_pyLower_of_pyContains c "_KEY" "_key" (by decide)
    cases hx : pyContains c "_ID" with
    | true =>
      have := h1 hx
      simp [this]
    | false =>
      cases hy : pyContains c "_KEY" with
      | true =>
        have := h2 hy
        simp [this]
      | false => simp
  refine ⟨hc1, ?_, ?_, ?_, ?_⟩
  · intro h1
    simp [selectDims, h1]
  · intro h1 h2
    simp [selectDims, h1, h2]
  · intro h1 h2
    simp [selectDims, h1, h2]
  · intro hnil
    rw [selectDims_eq_nil_iff] at hnil
    exact h hnil

/-- C3 witness: the fallback theorem applied to the example frames, where
the first candidate `["Region"]` wins. -/
theorem C3_witness :
    sharedCols exCognos exPbi ≠ [] ∧
    selectDims exCognos exPbi = dimCandidate1 exCognos exPbi ∧
    selectDims exCognos exPbi ≠ [] :=
  ⟨by decide,
   (C3_dimension_selector_fallback exCognos exPbi (by decide)).2.1 (by decide),
   (C3_dimension_selector_fallback exCognos exPbi (by decide)).2.2.2.2⟩

/-! ## C6 — NoCommonColumnsError -/

/-- C6: the reconciliation fails with the `NoCommonColumnsError`
(`ValueError("No common columns found to use as dimensions.")`, reported
before the in-place fill and before any aggregation) exactly when the two
frames share no column; with a non-empty intersection the selected
dimensions are non-empty and the call succeeds. -/
theorem C6_no_common_columns_error (cognos pbi : DataFrame) :
    ((∃ e, generate_validation_report cognos pbi = .error e) ↔
      sharedCols cognos pbi = []) ∧
    (sharedCols cognos pbi = [] →
      generate_validation_report cognos pbi =
        .error "No common columns found to use as dimensions.") ∧
    (sharedCols cognos pbi ≠ [] →
      selectDims cognos pbi ≠ [] ∧
      ∃ out, generate_validation_report cognos pbi = .ok out) := by
  by_cases hs : sharedCols cognos pbi = []
  · have hd : selectDims cognos pbi = [] := (selectDims_eq_nil_iff cognos pbi).mpr hs
    have herr : generate_validation_report cognos pbi =
        .error "No common columns found to use as dimensions." := by
      simp [generate_validation_report, hd]
    exact ⟨⟨fun _ => hs, fun _ => ⟨_, herr⟩⟩, fun _ => herr, fun hns => absurd hs hns⟩
  · have hd : selectDims cognos pbi ≠ [] :=
      fun hnil => hs ((selectDims_eq_nil_iff cognos pbi).mp hnil)
    have hok : ∃ out, generate_validation_report cognos pbi = .ok out := by
      cases hg : generate_validation_report cognos pbi with
      | error e =>
        rw [generate_validation_report] at hg
        simp [hd] at hg
      | ok out => exact ⟨out, rfl⟩
    refine ⟨⟨fun he => ?_, fun h => absurd h hs⟩, fun h => absurd h hs,
      fun _ => ⟨hd, hok⟩⟩
    obtain ⟨e, he⟩ := he
    rw [generate_validation_report] at he
    simp [hd] at he

/-- C6 witness: on the example frames (shared columns `Region`, `Sales`)
the call succeeds; on column-disjoint frames it fails with the error. -/
theorem C6_witness :
    (∃ out, generate_validation_report exCognos exPbi = .ok out) ∧
    ((∃ e, generate_validation_report ⟨[("A", .obj)], []⟩ ⟨[("B", .obj)], []⟩ = .error e) ↔
      sharedCols ⟨[("A", .obj)], []⟩ ⟨[("B", .obj)], []⟩ = []) :=
  ⟨((C6_no_common_columns_error exCognos exPbi).2.2 (by decide)).2,
   (C6_no_common_columns_error ⟨[("A", .obj)], []⟩ ⟨[("B", .obj)], []⟩).1⟩

/-! ## C4 — Key Unifier -/

/-- C4: the unified key list has no duplicates and is, as a set, the union
of the two aggregates' key sets; every report row's key belongs to at
least one aggregate. -/
theorem C4_unified_key_space (cogA pbiA : List AggRow) (dims measures : List String) :
    (unifiedKeys cogA pbiA).Nodup ∧
    (∀ k, k ∈ unifiedKeys cogA pbiA ↔ k ∈ aggKeys cogA ∨ k ∈ aggKeys pbiA) ∧
    (∀ row ∈ (buildReport cogA pbiA dims measures).rows,
      row.key ∈ aggKeys cogA ∨ row.key ∈ aggKeys pbiA) := by
  refine ⟨List.nodup_dedup _, fun k => by simp [unifiedKeys, List.mem_dedup], ?_⟩
  intro row hrow
  simp only [buildReport, List.mem_map] at hrow
  obtain ⟨k, hk, hrk⟩ := hrow
  have hkey : row.key = k := by rw [← hrk]; rfl
  rw [hkey]
  simpa [unifiedKeys, List.mem_dedup] using hk

/-- C4 witness: the key-space theorem applied to the aggregates produced by
the example frames. -/
theorem C4_witness :
    (unifiedKeys exOut.cognosAgg exOut.pbiAgg).Nodup ∧
    ("EAST" ∈ unifiedKeys exOut.cognosAgg exOut.pbiAgg ↔
      "EAST" ∈ aggKeys exOut.cognosAgg ∨ "EAST" ∈ aggKeys exOut.pbiAgg) ∧
    ((exOut.report.rows.getD 0 default).key ∈ aggKeys exOut.cognosAgg ∨
      (exOut.report.rows.getD 0 default).key ∈ aggKeys exOut.pbiAgg) :=
  ⟨(C4_unified_key_space exOut.cognosAgg exOut.pbiAgg exOut.dims exOut.report.measures).1,
   (C4_unified_key_space exOut.cognosAgg exOut.pbiAgg exOut.dims exOut.report.measures).2.1 "EAST",
   (C4_unified_key_space exOut.cognosAgg exOut.pbiAgg ["Region"] ["Sales"]).2.2
     (exOut.report.rows.getD 0 default) (by decide)⟩

/-! ## C7 — Aggregation is invariant under row permutation -/

/-- C7: permuting the input rows of a frame changes neither any group's
summed measure value, nor the set of group tuples, nor the set of
aggregated rows. -/
theorem C7_aggregation_perm_invariant (cols : List (String × Dtype))
    (rows1 rows2 : List (List Value)) (dims measures : List String)
    (h : rows1.Perm rows2) :
    (∀ g m, aggMeasure ⟨cols, rows1⟩ dims m g = aggMeasure ⟨cols, rows2⟩ dims m g) ∧
    (∀ g, g ∈ groupTuples ⟨cols, rows1⟩ dims ↔ g ∈ groupTuples ⟨cols, rows2⟩ dims) ∧
    (∀ ar, ar ∈ aggregate ⟨cols, rows1⟩ dims measures ↔
      ar ∈ aggregate ⟨cols, rows2⟩ dims measures) := by
  have hagg : ∀ g m, aggMeasure ⟨cols, rows1⟩ dims m g = aggMeasure ⟨cols, rows2⟩ dims m g := by
    intro g m
    exact ((h.filter _).map _).sum_eq
  have hgrp : ∀ g, g ∈ groupTuples ⟨cols, rows1⟩ dims ↔ g ∈ groupTuples ⟨cols, rows2⟩ dims := by
    intro g
    simp only [groupTuples, List.mem_dedup]
    exact (h.map _).mem_iff
  refine ⟨hagg, hgrp, ?_⟩
  intro ar
  simp only [aggregate, List.mem_map]
  constructor
  · rintro ⟨g, hg, rfl⟩
    refine ⟨g, (hgrp g).mp hg, ?_⟩
    simp only [AggRow.mk.injEq, true_and, and_true]
    exact List.map_congr_left (fun m _ => (hagg g m).symm)
  · rintro ⟨g, hg, rfl⟩
    refine ⟨g, (hgrp g).mpr hg, ?_⟩
    simp only [AggRow.mk.injEq, true_and, and_true]
    exact List.map_congr_left (fun m _ => hagg g m)

/-- C7 witness: swapping the two rows of the example SOURCE frame changes
no group total, group set, or aggregated row set. -/
theorem C7_witness :
    aggMeasure ⟨exCognos.cols, exCognos.rows⟩ ["Region"] "Sales" [.vStr "East"] =
      aggMeasure ⟨exCognos.cols, [[.vStr "West", .vNum 50], [.vStr "East", .vNum 100]]⟩
        ["Region"] "Sales" [.vStr "East"] ∧
    ([Value.vStr "East"] ∈ groupTuples ⟨exCognos.cols, exCognos.rows⟩ ["Region"] ↔
      [Value.vStr "East"] ∈
        groupTuples ⟨exCognos.cols, [[.vStr "West", .vNum 50], [.vStr "East", .vNum 100]]⟩
          ["Region"]) :=
  ⟨(C7_aggregation_perm_invariant exCognos.cols exCognos.rows
      [[.vStr "West", .vNum 50], [.vStr "East", .vNum 100]] ["Region"] ["Sales"]
      (List.Perm.swap _ _ _)).1 [.vStr "East"] "Sales",
   (C7_aggregation_perm_invariant exCognos.cols exCognos.rows
      [[.vStr "West", .vNum 50], [.vStr "East", .vNum 100]] ["Region"] ["Sales"]
      (List.Perm.swap _ _ _)).2.1 [.vStr "East"]⟩

/-! ## C1 — Reconciler rows: Diff, stored sides, presence -/

/-- C1: in every report row, each measure's Diff is the PBI lookup minus
the Cognos lookup with an absent side read as 0; the stored side columns
are exactly the raw dictionary lookups and are blank (`none`) precisely
when the key is absent from that side's aggregate; and presence is
assigned exhaustively and mutually exclusively according to which
aggregates contain the key. -/
theorem C1_reconciler_row (cognos pbi : DataFrame) (out : ValidationOutput)
    (h : generate_validation_report cognos pbi = .ok out)
    (row : ReportRow) (hrow : row ∈ out.report.rows)
    (i : Nat) (hi : i < out.report.measures.length) :
    ((row.meas.getD i default).diff =
      (row.meas.getD i default).pbi.getD 0 - (row.meas.getD i default).cog.getD 0) ∧
    ((row.meas.getD i default).cog =
      dget (dictOf out.cognosAgg (fun a => a.mvals.getD i 0)) row.key) ∧
    ((row.meas.getD i default).pbi =
      dget (dictOf out.pbiAgg (fun a => a.mvals.getD i 0)) row.key) ∧
    ((row.meas.getD i default).cog = none ↔ row.key ∉ aggKeys out.cognosAgg) ∧
    ((row.meas.getD i default).pbi = none ↔ row.key ∉ aggKeys out.pbiAgg) ∧
    (row.presence = "Present in Both" ↔
      row.key ∈ aggKeys out.cognosAgg ∧ row.key ∈ aggKeys out.pbiAgg) ∧
    (row.presence = "Present in Cognos" ↔
      row.key ∈ aggKeys out.cognosAgg ∧ row.key ∉ aggKeys out.pbiAgg) ∧
    (row.presence = "Present in PBI" ↔
      row.key ∉ aggKeys out.cognosAgg ∧ row.key ∈ aggKeys out.pbiAgg) ∧
    (row.presence = "Present in Both" ∨ row.presence = "Present in Cognos" ∨
      row.presence = "Present in PBI") := by
  rw [generate_validation_report] at h
  by_cases hd : selectDims cognos pbi = []
  · simp [hd] at h
  · simp only [hd, if_neg, ite_false] at h
    rw [Except.ok.injEq] at h
    subst h
    simp only [buildReport, List.mem_map] at hrow
    obtain ⟨k, hk, heq⟩ := hrow
    subst heq
    have hu : k ∈ aggKeys (aggregate (fillnaDims cognos (selectDims cognos pbi))
          (selectDims cognos pbi)
          (allMeasures (fillnaDims cognos (selectDims cognos pbi))
            (fillnaDims pbi (selectDims cognos pbi)) (selectDims cognos pbi))) ∨
        k ∈ aggKeys (aggregate (fillnaDims pbi (selectDims cognos pbi))
          (selectDims cognos pbi)
          (allMeasures (fillnaDims cognos (selectDims cognos pbi))
            (fillnaDims pbi (selectDims cognos pbi)) (selectDims cognos pbi))) := by
      simpa [unifiedKeys, List.mem_dedup] using hk
    set cogA := aggregate (fillnaDims cognos (selectDims cognos pbi))
      (selectDims cognos pbi)
      (allMeasures (fillnaDims cognos (selectDims cognos pbi))
        (fillnaDims pbi (selectDims cognos pbi)) (selectDims cognos pbi)) with hcogA
    set pbiA := aggregate (fillnaDims pbi (selectDims cognos pbi))
      (selectDims cognos pbi)
      (allMeasures (fillnaDims cognos (selectDims cognos pbi))
        (fillnaDims pbi (selectDims cognos pbi)) (selectDims cognos pbi)) with hpbiA
    set ms := allMeasures (fillnaDims cognos (selectDims cognos pbi))
      (fillnaDims pbi (selectDims cognos pbi)) (selectDims cognos pbi) with hms
    have hil : i < ms.length := hi
    have hmeas : (reportRowFor cogA pbiA (selectDims cognos pbi) ms k).meas.getD i default =
        measureCells cogA pbiA i k := by
      simp only [reportRowFor]
      rw [List.getD_eq_getElem?_getD, List.getElem?_map, List.getElem?_range hil]
      rfl
    have hkey : (reportRowFor cogA pbiA (selectDims cognos pbi) ms k).key = k := rfl
    have hpres : (reportRowFor cogA pbiA (selectDims cognos pbi) ms k).presence =
        presenceOf cogA pbiA k := rfl
    rw [hmeas, hkey, hpres]
    have hne1 : "Present in Both" ≠ "Present in Cognos" := by decide
    have hne2 : "Present in Both" ≠ "Present in PBI" := by decide
    have hne3 : "Present in Cognos" ≠ "Present in PBI" := by decide
    refine ⟨rfl, rfl, rfl, ?_, ?_, ?_, ?_, ?_, ?_⟩
    · rw [show (measureCells cogA pbiA i k).cog =
          dget (dictOf cogA (fun a => a.mvals.getD i 0)) k from rfl,
        dget_eq_none_iff, dictOf_map_fst]
    · rw [show (measureCells cogA pbiA i k).pbi =
          dget (dictOf pbiA (fun a => a.mvals.getD i 0)) k from rfl,
        dget_eq_none_iff, dictOf_map_fst]
    · by_cases hA : k ∈ aggKeys cogA <;> by_cases hB : k ∈ aggKeys pbiA <;>
        simp [presenceOf, hA, hB, hne1, hne2, hne1.symm, hne3]
    · by_cases hA : k ∈ aggKeys cogA <;> by_cases hB : k ∈ aggKeys pbiA <;>
        simp [presenceOf, hA, hB, hne1, hne3, hne1.symm, hne3.symm]
    · by_cases hA : k ∈ aggKeys cogA <;> by_cases hB : k ∈ aggKeys pbiA
      · simp [presenceOf, hA, hB, hne2.symm]
      · simp [presenceOf, hA, hB, hne3.symm]
      · simp [presenceOf, hA, hB]
      · rcases hu with hu | hu
        · exact absurd hu hA
        · exact absurd hu hB
    · by_cases hA : k ∈ aggKeys cogA <;> by_cases hB : k ∈ aggKeys pbiA <;>
        simp [presenceOf, hA, hB]

/-- C1 witness: the reconciler-row theorem applied to the first report row
(`WEST`, present only in Cognos) of the example frames. -/
theorem C1_witness :
    (((exOut.report.rows.getD 0 default).meas.getD 0 default).diff =
      ((exOut.report.rows.getD 0 default).meas.getD 0 default).pbi.getD 0 -
      ((exOut.report.rows.getD 0 default).meas.getD 0 default).cog.getD 0) ∧
    ((exOut.report.rows.getD 0 default).presence = "Present in Both" ∨
     (exOut.report.rows.getD 0 default).presence = "Present in Cognos" ∨
     (exOut.report.rows.getD 0 default).presence = "Present in PBI") :=
  ⟨(C1_reconciler_row exCognos exPbi exOut rfl (exOut.report.rows.getD 0 default)
      (by decide) 0 (by decide)).1,
   (C1_reconciler_row exCognos exPbi exOut rfl (exOut.report.rows.getD 0 default)
      (by decide) 0 (by decide)).2.2.2.2.2.2.2.2⟩

/-! ## C9 — `generate_validation_report` mutates its inputs in place -/

theorem getD_map_of_lt {α β : Type} (g : α → β) (l : List α) (i : Nat)
    (hi : i < l.length) (da : α) (db : β) :
    (l.map g).getD i db = g (l.getD i da) := by
  have hx : l[i]? = some (l.get ⟨i, hi⟩) := by
    rw [List.getElem?_eq_getElem hi]
    rfl
  rw [List.getD_eq_getElem?_getD, List.getElem?_map, hx,
    List.getD_eq_getElem?_getD, hx]
  rfl

theorem getD_zipWith_of_lt {α β γ : Type} (f : α → β → γ) (as : List α)
    (bs : List β) (j : Nat) (hja : j < as.length) (hjb : j < bs.length)
    (da : α) (db : β) (dc : γ) :
    (List.zipWith f as bs).getD j dc = f (as.getD j da) (bs.getD j db) := by
  induction as generalizing bs j with
  | nil => cases hja
  | cons a as ih =>
    cases bs with
    | nil => cases hjb
    | cons b bs =>
      cases j with
      | zero => rfl
      | succ j =>
        simp only [List.zipWith_cons_cons, List.getD_cons_succ]
        exact ih bs j (Nat.lt_of_succ_lt_succ hja) (Nat.lt_of_succ_lt_succ hjb)

/-- C9: a successful call leaves both input frames with every missing value
in a dimension column replaced by the literal string `'NAN'`, leaves every
other cell (in particular every non-dimension column) unmodified, and
whenever some dimension cell was missing the input frame really is changed
— the call is not pure. -/
theorem C9_inplace_mutation (cognos pbi : DataFrame) (out : ValidationOutput)
    (h : generate_validation_report cognos pbi = .ok out) :
    out.cognosAfter.cols = cognos.cols ∧
    out.pbiAfter.cols = pbi.cols ∧
    out.cognosAfter.rows.length = cognos.rows.length ∧
    out.pbiAfter.rows.length = pbi.rows.length ∧
    (∀ i j, i < cognos.rows.length → j < (cognos.rows.getD i []).length →
      j < cognos.cols.length →
      (out.cognosAfter.rows.getD i []).getD j default =
        (if (cognos.cols.getD j ("", .other)).1 ∈ out.dims ∧
            (cognos.rows.getD i []).getD j default = .vNull
         then .vStr "NAN" else (cognos.rows.getD i []).getD j default)) ∧
    (∀ i j, i < pbi.rows.length → j < (pbi.rows.getD i []).length →
      j < pbi.cols.length →
      (out.pbiAfter.rows.getD i []).getD j default =
        (if (pbi.cols.getD j ("", .other)).1 ∈ out.dims ∧
            (pbi.rows.getD i []).getD j default = .vNull
         then .vStr "NAN" else (pbi.rows.getD i []).getD j default)) ∧
    ((∃ i j, i < cognos.rows.length ∧ j < (cognos.rows.getD i []).length ∧
        j < cognos.cols.length ∧ (cognos.cols.getD j ("", .other)).1 ∈ out.dims ∧
        (cognos.rows.getD i []).getD j default = .vNull) →
      out.cognosAfter ≠ cognos) := by
  rw [generate_validation_report] at h
  by_cases hd : selectDims cognos pbi = []
  · simp [hd] at h
  · simp only [hd, if_neg, ite_false] at h
    rw [Except.ok.injEq] at h
    subst h
    have hcellC : ∀ i j, i < cognos.rows.length → j < (cognos.rows.getD i []).length →
        j < cognos.cols.length →
        ((fillnaDims cognos (selectDims cognos pbi)).rows.getD i []).getD j default =
          (if (cognos.cols.getD j ("", .other)).1 ∈ selectDims cognos pbi ∧
              (cognos.rows.getD i []).getD j default = .vNull
           then .vStr "NAN" else (cognos.rows.getD i []).getD j default) := by
      intro i j hi hj hjc
      show ((cognos.rows.map _).getD i []).getD j default = _
      rw [getD_map_of_lt _ _ i hi []]
      rw [getD_zipWith_of_lt _ _ _ j hjc hj ("", Dtype.other) default]
    have hcellP : ∀ i j, i < pbi.rows.length → j < (pbi.rows.getD i []).length →
        j < pbi.cols.length →
        ((fillnaDims pbi (selectDims cognos pbi)).rows.getD i []).getD j default =
          (if (pbi.cols.getD j ("", .other)).1 ∈ selectDims cognos pbi ∧
              (pbi.rows.getD i []).getD j default = .vNull
           then .vStr "NAN" else (pbi.rows.getD i []).getD j default) := by
      intro i j hi hj hjc
      show ((pbi.rows.map _).getD i []).getD j default = _
      rw [getD_map_of_lt _ _ i hi []]
      rw [getD_zipWith_of_lt _ _ _ j hjc hj ("", Dtype.other) default]
    refine ⟨rfl, rfl, by simp [fillnaDims], by simp [fillnaDims], hcellC, hcellP, ?_⟩
    rintro ⟨i, j, hi, hj, hjc, hmem, hnull⟩ heq
    have heq' : fillnaDims cognos (selectDims cognos pbi) = cognos := heq
    have hmem' : (cognos.cols.getD j ("", Dtype.other)).1 ∈ selectDims cognos pbi := hmem
    have hcell := hcellC i j hi hj hjc
    rw [heq', if_pos ⟨hmem', hnull⟩, hnull] at hcell
    cases hcell

/-- SOURCE frame with a missing dimension value, for the mutation witness. -/
def nullCognos : DataFrame :=
  ⟨[("Region", .obj), ("Sales", .num)], [[.vNull, .vNum 5]]⟩

/-- TARGET frame paired with `nullCognos`. -/
def nullPbi : DataFrame :=
  ⟨[("Region", .obj), ("Sales", .num)], [[.vStr "x", .vNum 3]]⟩

/-- The pipeline output on the null-containing frames. -/
def nullOut : ValidationOutput :=
  (generate_validation_report nullCognos nullPbi).toOption.getD default

/-- C9 witness: on a frame whose dimension column holds a missing value,
the call really changes the caller's frame, and the frame's column list is
untouched. -/
theorem C9_witness :
    nullOut.cognosAfter ≠ nullCognos ∧ nullOut.cognosAfter.cols = nullCognos.cols :=
  ⟨(C9_inplace_mutation nullCognos nullPbi nullOut rfl).2.2.2.2.2.2
     ⟨0, 0, by decide, by decide, by decide, by decide, by decide⟩,
   (C9_inplace_mutation nullCognos nullPbi nullOut rfl).1⟩

/-! ## C8 — Empty Measure Set -/

/-- C8: with a non-empty column intersection the call succeeds whatever the
Measure Set is, and when the Measure Set is empty the report's column order
is exactly the key column, the dimension columns in order, and the presence
column — no measure columns — while every row carries no measure cells. -/
theorem C8_empty_measure_set (cognos pbi : DataFrame)
    (hs : sharedCols cognos pbi ≠ []) :
    ∃ out, generate_validation_report cognos pbi = .ok out ∧
      (out.report.measures = [] →
        reportColumns out.report.dims out.report.measures =
          "unique_key" :: (out.report.dims ++ ["presence"]) ∧
        ∀ row ∈ out.report.rows, row.meas = []) := by
  have hd : selectDims cognos pbi ≠ [] :=
    fun hnil => hs ((selectDims_eq_nil_iff cognos pbi).mp hnil)
  cases hg : generate_validation_report cognos pbi with
  | error e =>
    rw [generate_validation_report] at hg
    simp [hd] at hg
  | ok out =>
    refine ⟨out, rfl, fun hm => ?_⟩
    constructor
    · simp [reportColumns, hm]
    · intro row hrow
      rw [generate_validation_report] at hg
      simp only [hd, if_neg, ite_false] at hg
      rw [Except.ok.injEq] at hg
      subst hg
      simp only [buildReport, List.mem_map] at hrow
      obtain ⟨k, hk, heq⟩ := hrow
      have hms : (allMeasures (fillnaDims cognos (selectDims cognos pbi))
          (fillnaDims pbi (selectDims cognos pbi)) (selectDims cognos pbi)) = [] := hm
      rw [← heq]
      simp [reportRowFor, hms]

/-- Frames sharing only a text column: their Measure Set is empty. -/
def noMeasCognos : DataFrame := ⟨[("Region", .obj)], [[.vStr "a"]]⟩

/-- TARGET side for the empty-Measure-Set witness. -/
def noMeasPbi : DataFrame := ⟨[("Region", .obj)], [[.vStr "b"]]⟩

/-- C8 witness: the empty-Measure-Set theorem applied to frames with no
common numeric column; the hypothesis and the inner measure-set condition
hold by evaluation. -/
theorem C8_witness :
    sharedCols noMeasCognos noMeasPbi ≠ [] ∧
    (∃ out, generate_validation_report noMeasCognos noMeasPbi = .ok out ∧
      (out.report.measures = [] →
        reportColumns out.report.dims out.report.measures =
          "unique_key" :: (out.report.dims ++ ["presence"]) ∧
        ∀ row ∈ out.report.rows, row.meas = [])) :=
  ⟨by decide, C8_empty_measure_set noMeasCognos noMeasPbi (by decide)⟩

/-! ## C10 — uppercased-key collisions: the last aggregated row wins -/

theorem getD_range_map {α : Type} (n : Nat) (f : Nat → α) (i : Nat)
    (hi : i < n) (d : α) : ((List.range n).map f).getD i d = f i := by
  rw [List.getD_eq_getElem?_getD, List.getElem?_map, List.getElem?_range hi]
  rfl

/-- In a dict built from an aggregate holding an earlier row `r` and a later
row `r'` with the same key, the lookup at that key returns the later row's
value (`dict(zip(...))` keeps the last binding). -/
theorem dget_agg_last {α : Type} (pre mid post : List AggRow) (r r' : AggRow)
    (f : AggRow → α) (hlast : r'.key ∉ aggKeys post) :
    dget (dictOf (pre ++ r :: mid ++ r' :: post) f) r'.key = some (f r') := by
  have hpost : r'.key ∉ (dictOf post f).map Prod.fst := by
    rw [dictOf_map_fst]
    exact hlast
  have hshape : dictOf (pre ++ r :: mid ++ r' :: post) f =
      (dictOf pre f ++ (r.key, f r) :: dictOf mid f) ++ (r'.key, f r') :: dictOf post f := by
    simp [dictOf]
  rw [hshape]
  exact dget_last_wins _ _ _ _ hpost

/-- Removing the earlier of two same-key aggregate rows changes no dict
lookup. -/
theorem dget_agg_skip {α : Type} (pre mid post : List AggRow) (r r' : AggRow)
    (f : AggRow → α) (hkey : r.key = r'.key) (k : String) :
    dget (dictOf (pre ++ r :: mid ++ r' :: post) f) k =
    dget (dictOf (pre ++ mid ++ r' :: post) f) k := by
  have hmem : r.key ∈ (dictOf mid f ++ (r'.key, f r') :: dictOf post f).map Prod.fst := by
    rw [hkey]
    simp
  have hshape : dictOf (pre ++ r :: mid ++ r' :: post) f =
      dictOf pre f ++ (r.key, f r) :: (dictOf mid f ++ (r'.key, f r') :: dictOf post f) := by
    simp [dictOf]
  have hshape2 : dictOf (pre ++ mid ++ r' :: post) f =
      dictOf pre f ++ (dictOf mid f ++ (r'.key, f r') :: dictOf post f) := by
    simp [dictOf]
  rw [hshape, hshape2, dget_middle_skip _ _ _ _ _ hmem]

/-- Collision inside the SOURCE (Cognos) aggregate: the report row for the
collided key stores the later colliding row's dimension and measure
values; deleting the earlier colliding row permutes no more than the
report's rows, and every per-measure diff sum of the summary is
unchanged. -/
theorem buildReport_source_collision (pre mid post pbiA : List AggRow)
    (r r' : AggRow) (dims ms : List String)
    (hkey : r.key = r'.key) (hlast : r'.key ∉ aggKeys post) :
    (∀ row ∈ (buildReport (pre ++ r :: mid ++ r' :: post) pbiA dims ms).rows,
      row.key = r'.key →
      (∀ i, i < ms.length →
        (row.meas.getD i default).cog = some (r'.mvals.getD i 0)) ∧
      (∀ i, i < dims.length →
        row.dvals.getD i none = some (r'.dvals.getD i .vNull))) ∧
    (buildReport (pre ++ r :: mid ++ r' :: post) pbiA dims ms).rows.Perm
      (buildReport (pre ++ mid ++ r' :: post) pbiA dims ms).rows ∧
    (∀ i, ((buildReport (pre ++ r :: mid ++ r' :: post) pbiA dims ms).rows.map
        (fun row => (row.meas.getD i default).diff)).sum =
      ((buildReport (pre ++ mid ++ r' :: post) pbiA dims ms).rows.map
        (fun row => (row.meas.getD i default).diff)).sum) := by
  have hkmem : ∀ k2, k2 ∈ aggKeys (pre ++ r :: mid ++ r' :: post) ↔
      k2 ∈ aggKeys (pre ++ mid ++ r' :: post) := by
    intro k2
    simp only [aggKeys, List.map_append, List.map_cons, List.mem_append, List.mem_cons]
    rw [hkey]
    tauto
  have hdgc : ∀ (α : Type) (f : AggRow → α) k2,
      dget (dictOf (pre ++ r :: mid ++ r' :: post) f) k2 =
      dget (dictOf (pre ++ mid ++ r' :: post) f) k2 :=
    fun α f k2 => dget_agg_skip pre mid post r r' f hkey k2
  have hrow_eq : ∀ k2, reportRowFor (pre ++ r :: mid ++ r' :: post) pbiA dims ms k2 =
      reportRowFor (pre ++ mid ++ r' :: post) pbiA dims ms k2 := by
    intro k2
    have h1 : (List.range dims.length).map
        (fun i => dimValFor (pre ++ r :: mid ++ r' :: post) pbiA i k2) =
        (List.range dims.length).map
        (fun i => dimValFor (pre ++ mid ++ r' :: post) pbiA i k2) := by
      apply List.map_congr_left
      intro j _
      simp only [dimValFor, hdgc]
    have h2 : presenceOf (pre ++ r :: mid ++ r' :: post) pbiA k2 =
        presenceOf (pre ++ mid ++ r' :: post) pbiA k2 := by
      simp only [presenceOf]
      exact if_congr (and_congr_left' (hkmem k2)) rfl (if_congr (hkmem k2) rfl rfl)
    have h3 : (List.range ms.length).map
        (fun i => measureCells (pre ++ r :: mid ++ r' :: post) pbiA i k2) =
        (List.range ms.length).map
        (fun i => measureCells (pre ++ mid ++ r' :: post) pbiA i k2) := by
      apply List.map_congr_left
      intro j _
      simp only [measureCells, hdgc]
    simp only [reportRowFor, h1, h2, h3]
  have hkperm : (unifiedKeys (pre ++ r :: mid ++ r' :: post) pbiA).Perm
      (unifiedKeys (pre ++ mid ++ r' :: post) pbiA) := by
    rw [unifiedKeys, unifiedKeys,
      List.perm_ext_iff_of_nodup (List.nodup_dedup _) (List.nodup_dedup _)]
    intro k2
    simp only [unifiedKeys, List.mem_dedup, List.mem_append]
    constructor
    · rintro (h | h)
      · exact Or.inl ((hkmem k2).mp h)
      · exact Or.inr h
    · rintro (h | h)
      · exact Or.inl ((hkmem k2).mpr h)
      · exact Or.inr h
  have hrows : (buildReport (pre ++ r :: mid ++ r' :: post) pbiA dims ms).rows.Perm
      (buildReport (pre ++ mid ++ r' :: post) pbiA dims ms).rows := by
    simp only [buildReport]
    rw [List.map_congr_left (fun k2 _ => hrow_eq k2)]
    exact hkperm.map _
  refine ⟨?_, hrows, fun i => (hrows.map _).sum_eq⟩
  intro row hrow hkr
  simp only [buildReport, List.mem_map] at hrow
  obtain ⟨k2, hk2, heq⟩ := hrow
  have hk2' : k2 = r'.key := by
    rw [← hkr, ← heq]
    rfl
  subst hk2'
  subst heq
  constructor
  · intro i hi
    have hm : (reportRowFor (pre ++ r :: mid ++ r' :: post) pbiA dims ms r'.key).meas.getD
        i default = measureCells (pre ++ r :: mid ++ r' :: post) pbiA i r'.key := by
      simp only [reportRowFor]
      exact getD_range_map _ _ i hi _
    rw [hm]
    show dget (dictOf (pre ++ r :: mid ++ r' :: post) (fun a => a.mvals.getD i 0)) r'.key = _
    exact dget_agg_last pre mid post r r' _ hlast
  · intro i hi
    have hm : (reportRowFor (pre ++ r :: mid ++ r' :: post) pbiA dims ms r'.key).dvals.getD
        i none = dimValFor (pre ++ r :: mid ++ r' :: post) pbiA i r'.key := by
      simp only [reportRowFor]
      exact getD_range_map _ _ i hi _
    rw [hm, dimValFor, dget_agg_last pre mid post r r' _ hlast]

/-- Collision inside the TARGET (PBI) aggregate: the report row's PBI
measure cells store the later colliding row's sums, its dimension values
come from the later target collider whenever the key is absent from the
source aggregate (the `fillna` at model.py lines 90-91 gives the source
side precedence otherwise), deleting the earlier collider permutes no more
than the report's rows, and every per-measure diff sum is unchanged. -/
theorem buildReport_target_collision (pre mid post cogA : List AggRow)
    (r r' : AggRow) (dims ms : List String)
    (hkey : r.key = r'.key) (hlast : r'.key ∉ aggKeys post) :
    (∀ row ∈ (buildReport cogA (pre ++ r :: mid ++ r' :: post) dims ms).rows,
      row.key = r'.key →
      (∀ i, i < ms.length →
        (row.meas.getD i default).pbi = some (r'.mvals.getD i 0)) ∧
      (row.key ∉ aggKeys cogA → ∀ i, i < dims.length →
        row.dvals.getD i none = some (r'.dvals.getD i .vNull))) ∧
    (buildReport cogA (pre ++ r :: mid ++ r' :: post) dims ms).rows.Perm
      (buildReport cogA (pre ++ mid ++ r' :: post) dims ms).rows ∧
    (∀ i, ((buildReport cogA (pre ++ r :: mid ++ r' :: post) dims ms).rows.map
        (fun row => (row.meas.getD i default).diff)).sum =
      ((buildReport cogA (pre ++ mid ++ r' :: post) dims ms).rows.map
        (fun row => (row.meas.getD i default).diff)).sum) := by
  have hkmem : ∀ k2, k2 ∈ aggKeys (pre ++ r :: mid ++ r' :: post) ↔
      k2 ∈ aggKeys (pre ++ mid ++ r' :: post) := by
    intro k2
    simp only [aggKeys, List.map_append, List.map_cons, List.mem_append, List.mem_cons]
    rw [hkey]
    tauto
  have hdgc : ∀ (α : Type) (f : AggRow → α) k2,
      dget (dictOf (pre ++ r :: mid ++ r' :: post) f) k2 =
      dget (dictOf (pre ++ mid ++ r' :: post) f) k2 :=
    fun α f k2 => dget_agg_skip pre mid post r r' f hkey k2
  have hrow_eq : ∀ k2, reportRowFor cogA (pre ++ r :: mid ++ r' :: post) dims ms k2 =
      reportRowFor cogA (pre ++ mid ++ r' :: post) dims ms k2 := by
    intro k2
    have h1 : (List.range dims.length).map
        (fun i => dimValFor cogA (pre ++ r :: mid ++ r' :: post) i k2) =
        (List.range dims.length).map
        (fun i => dimValFor cogA (pre ++ mid ++ r' :: post) i k2) := by
      apply List.map_congr_left
      intro j _
      simp only [dimValFor, hdgc]
    have h2 : presenceOf cogA (pre ++ r :: mid ++ r' :: post) k2 =
        presenceOf cogA (pre ++ mid ++ r' :: post) k2 := by
      simp only [presenceOf]
      exact if_congr (and_congr_right' (hkmem k2)) rfl rfl
    have h3 : (List.range ms.length).map
        (fun i => measureCells cogA (pre ++ r :: mid ++ r' :: post) i k2) =
        (List.range ms.length).map
        (fun i => measureCells cogA (pre ++ mid ++ r' :: post) i k2) := by
      apply List.map_congr_left
      intro j _
      simp only [measureCells, hdgc]
    simp only [reportRowFor, h1, h2, h3]
  have hkperm : (unifiedKeys cogA (pre ++ r :: mid ++ r' :: post)).Perm
      (unifiedKeys cogA (pre ++ mid ++ r' :: post)) := by
    rw [unifiedKeys, unifiedKeys,
      List.perm_ext_iff_of_nodup (List.nodup_dedup _) (List.nodup_dedup _)]
    intro k2
    simp only [List.mem_dedup, List.mem_append]
    constructor
    · rintro (h | h)
      · exact Or.inl h
      · exact Or.inr ((hkmem k2).mp h)
    · rintro (h | h)
      · exact Or.inl h
      · exact Or.inr ((hkmem k2).mpr h)
  have hrows : (buildReport cogA (pre ++ r :: mid ++ r' :: post) dims ms).rows.Perm
      (buildReport cogA (pre ++ mid ++ r' :: post) dims ms).rows := by
    simp only [buildReport]
    rw [List.map_congr_left (fun k2 _ => hrow_eq k2)]
    exact hkperm.map _
  refine ⟨?_, hrows, fun i => (hrows.map _).sum_eq⟩
  intro row hrow hkr
  simp only [buildReport, List.mem_map] at hrow
  obtain ⟨k2, hk2, heq⟩ := hrow
  have hk2' : k2 = r'.key := by
    rw [← hkr, ← heq]
    rfl
  subst hk2'
  subst heq
  constructor
  · intro i hi
    have hm : (reportRowFor cogA (pre ++ r :: mid ++ r' :: post) dims ms r'.key).meas.getD
        i default = measureCells cogA (pre ++ r :: mid ++ r' :: post) i r'.key := by
      simp only [reportRowFor]
      exact getD_range_map _ _ i hi _
    rw [hm]
    show dget (dictOf (pre ++ r :: mid ++ r' :: post) (fun a => a.mvals.getD i 0)) r'.key = _
    exact dget_agg_last pre mid post r r' _ hlast
  · intro hnot i hi
    have hm : (reportRowFor cogA (pre ++ r :: mid ++ r' :: post) dims ms r'.key).dvals.getD
        i none = dimValFor cogA (pre ++ r :: mid ++ r' :: post) i r'.key := by
      simp only [reportRowFor]
      exact getD_range_map _ _ i hi _
    have hnone : dget (dictOf cogA (fun a => a.dvals.getD i Value.vNull)) r'.key = none := by
      rw [dget_eq_none_iff, dictOf_map_fst]
      exact hnot
    rw [hm, dimValFor, hnone]
    exact dget_agg_last pre mid post r r' _ hlast

/-- C10: when two distinct aggregated rows within the same dataset —
either the SOURCE aggregate or the TARGET aggregate — normalize to the same
unified key, the single reconciliation row for that key takes that side's
values from whichever colliding row occurs last in that aggregate: the
side's stored measure column holds the last collider's sums, and the
dimension values come from the last collider (for a target-side collision,
whenever the key is absent from the source aggregate — otherwise the
source side takes precedence, per the fill at model.py lines 90-91);
deleting the earlier collider from its aggregate leaves the report rows a
permutation with identical per-key content and every per-measure summary
diff sum unchanged, so the earlier row's summed measures appear neither in
the reconciliation table nor in the summary. -/
theorem C10_key_collision_last_wins (pre mid post other : List AggRow)
    (r r' : AggRow) (dims ms : List String)
    (hkey : r.key = r'.key) (hlast : r'.key ∉ aggKeys post) :
    ((∀ row ∈ (buildReport (pre ++ r :: mid ++ r' :: post) other dims ms).rows,
      row.key = r'.key →
      (∀ i, i < ms.length →
        (row.meas.getD i default).cog = some (r'.mvals.getD i 0)) ∧
      (∀ i, i < dims.length →
        row.dvals.getD i none = some (r'.dvals.getD i .vNull))) ∧
    (buildReport (pre ++ r :: mid ++ r' :: post) other dims ms).rows.Perm
      (buildReport (pre ++ mid ++ r' :: post) other dims ms).rows ∧
    (∀ i, ((buildReport (pre ++ r :: mid ++ r' :: post) other dims ms).rows.map
        (fun row => (row.meas.getD i default).diff)).sum =
      ((buildReport (pre ++ mid ++ r' :: post) other dims ms).rows.map
        (fun row => (row.meas.getD i default).diff)).sum)) ∧
    ((∀ row ∈ (buildReport other (pre ++ r :: mid ++ r' :: post) dims ms).rows,
      row.key = r'.key →
      (∀ i, i < ms.length →
        (row.meas.getD i default).pbi = some (r'.mvals.getD i 0)) ∧
      (row.key ∉ aggKeys other → ∀ i, i < dims.length →
        row.dvals.getD i none = some (r'.dvals.getD i .vNull))) ∧
    (buildReport other (pre ++ r :: mid ++ r' :: post) dims ms).rows.Perm
      (buildReport other (pre ++ mid ++ r' :: post) dims ms).rows ∧
    (∀ i, ((buildReport other (pre ++ r :: mid ++ r' :: post) dims ms).rows.map
        (fun row => (row.meas.getD i default).diff)).sum =
      ((buildReport other (pre ++ mid ++ r' :: post) dims ms).rows.map
        (fun row => (row.meas.getD i default).diff)).sum)) :=
  ⟨buildReport_source_collision pre mid post other r r' dims ms hkey hlast,
   buildReport_target_collision pre mid post other r r' dims ms hkey hlast⟩

/-- Earlier aggregated row of a collision pair (key `A` from value `a`). -/
def c10r : AggRow := ⟨[.vStr "a"], [5], "A"⟩

/-- Later aggregated row of the collision pair (key `A` from value `A`). -/
def c10r2 : AggRow := ⟨[.vStr "A"], [7], "A"⟩

/-- TARGET-side aggregate for the source-collision witness. -/
def c10pbi : List AggRow := [⟨[.vStr "A"], [2], "A"⟩]

/-- SOURCE-side aggregate without the colliding key, for the
target-collision witness. -/
def c10cog : List AggRow := [⟨[.vStr "B"], [3], "B"⟩]

/-- C10 witness: with the collision `[c10r, c10r2]` in the SOURCE
aggregate, the report stores the later row's Cognos measure value 7 (not
5), deleting the earlier row permutes nothing, and the summary's diff sum
is unchanged; with the same collision in the TARGET aggregate (and the key
absent from the source side), the PBI measure cell and the dimension value
come from the later row, and deleting the earlier row permutes nothing. -/
theorem C10_witness :
    (((buildReport [c10r, c10r2] c10pbi ["x"] ["m"]).rows.getD 0 default).meas.getD 0
        default).cog = some 7 ∧
    (buildReport [c10r, c10r2] c10pbi ["x"] ["m"]).rows.Perm
      (buildReport [c10r2] c10pbi ["x"] ["m"]).rows ∧
    ((buildReport [c10r, c10r2] c10pbi ["x"] ["m"]).rows.map
        (fun row => (row.meas.getD 0 default).diff)).sum =
      ((buildReport [c10r2] c10pbi ["x"] ["m"]).rows.map
        (fun row => (row.meas.getD 0 default).diff)).sum ∧
    (((buildReport c10cog [c10r, c10r2] ["x"] ["m"]).rows.getD 1 default).meas.getD 0
        default).pbi = some 7 ∧
    ((buildReport c10cog [c10r, c10r2] ["x"] ["m"]).rows.getD 1 default).dvals.getD 0
        none = some (.vStr "A") ∧
    (buildReport c10cog [c10r, c10r2] ["x"] ["m"]).rows.Perm
      (buildReport c10cog [c10r2] ["x"] ["m"]).rows :=
  ⟨((C10_key_collision_last_wins [] [] [] c10pbi c10r c10r2 ["x"] ["m"] rfl
      (by decide)).1.1 ((buildReport [c10r, c10r2] c10pbi ["x"] ["m"]).rows.getD 0 default)
      (by decide) (by decide)).1 0 (by decide),
   (C10_key_collision_last_wins [] [] [] c10pbi c10r c10r2 ["x"] ["m"] rfl
      (by decide)).1.2.1,
   (C10_key_collision_last_wins [] [] [] c10pbi c10r c10r2 ["x"] ["m"] rfl
      (by decide)).1.2.2 0,
   ((C10_key_collision_last_wins [] [] [] c10cog c10r c10r2 ["x"] ["m"] rfl
      (by decide)).2.1 ((buildReport c10cog [c10r, c10r2] ["x"] ["m"]).rows.getD 1 default)
      (by decide) (by decide)).1 0 (by decide),
   ((C10_key_collision_last_wins [] [] [] c10cog c10r c10r2 ["x"] ["m"] rfl
      (by decide)).2.1 ((buildReport c10cog [c10r, c10r2] ["x"] ["m"]).rows.getD 1 default)
      (by decide) (by decide)).2 (by decide) 0 (by decide),
   (C10_key_collision_last_wins [] [] [] c10cog c10r c10r2 ["x"] ["m"] rfl
      (by decide)).2.2.1⟩

/-! ## C5 — Summary Builder -/

theorem pyEndswith_append_self (m s : String) : pyEndswith (m ++ s) s = true := by
  have h : s.data <:+ (m ++ s).data := ⟨m.data, (String.data_append m s).symm⟩
  rw [pyEndswith]
  exact List.isSuffixOf_iff_suffix.mpr h

theorem pyEndswith_append_false (m s pat : String) (hp : pat.data ≠ [])
    (hs : s.data ≠ []) (hne : pat.data.getLast? ≠ s.data.getLast?) :
    pyEndswith (m ++ s) pat = false := by
  rw [pyEndswith, Bool.eq_false_iff]
  intro hc
  have hsuf : pat.data <:+ (m ++ s).data := List.isSuffixOf_iff_suffix.mp hc
  obtain ⟨t, ht⟩ := hsuf
  rw [String.data_append] at ht
  have h1 : (t ++ pat.data).getLast? = pat.data.getLast? :=
    List.getLast?_append_of_ne_nil _ hp
  have h2 : (m.data ++ s.data).getLast? = s.data.getLast? :=
    List.getLast?_append_of_ne_nil _ hs
  exact hne (by rw [← h1, ht, h2])

theorem append_ne_const_of_getLast_ne (a s t : String) (hs : s.data ≠ [])
    (hne : s.data.getLast? ≠ t.data.getLast?) : a ++ s ≠ t := by
  intro he
  have hd : a.data ++ s.data = t.data := by
    rw [← String.data_append, he]
  have h1 : (a.data ++ s.data).getLast? = s.data.getLast? :=
    List.getLast?_append_of_ne_nil _ hs
  exact hne (by rw [← h1, hd])

theorem str_append_cancel (a b s : String) (h : a ++ s = b ++ s) : a = b := by
  have hd : a.data ++ s.data = b.data ++ s.data := by
    rw [← String.data_append, ← String.data_append, h]
  have hab : a.data = b.data := List.append_cancel_right hd
  cases a
  cases b
  exact congrArg (fun d => ({ data := d } : String)) hab

theorem append_ne_append_of_getLast_ne (a b s t : String) (hs : s.data ≠ [])
    (ht : t.data ≠ []) (hne : s.data.getLast? ≠ t.data.getLast?) :
    a ++ s ≠ b ++ t := by
  intro he
  have hd : a.data ++ s.data = b.data ++ t.data := by
    rw [← String.data_append, ← String.data_append, he]
  have h1 : (a.data ++ s.data).getLast? = s.data.getLast? :=
    List.getLast?_append_of_ne_nil _ hs
  have h2 : (b.data ++ t.data).getLast? = t.data.getLast? :=
    List.getLast?_append_of_ne_nil _ ht
  exact hne (by rw [← h1, hd, h2])

/-- The `_Diff`-suffixed columns of a triple block are exactly the per
measure `m_Diff` columns. -/
theorem filter_triple_cols (ms : List String) :
    (ms.flatMap (fun m => [m ++ "_Cognos", m ++ "_PBI", m ++ "_Diff"])).filter
      (fun c => pyEndswith c "_Diff") = ms.map (fun m => m ++ "_Diff") := by
  induction ms with
  | nil => rfl
  | cons m rest ih =>
    rw [List.flatMap_cons, List.filter_append, ih, List.map_cons]
    have hCog : pyEndswith (m ++ "_Cognos") "_Diff" = false :=
      pyEndswith_append_false m "_Cognos" "_Diff" (by decide) (by decide) (by decide)
    have hPbi : pyEndswith (m ++ "_PBI") "_Diff" = false :=
      pyEndswith_append_false m "_PBI" "_Diff" (by decide) (by decide) (by decide)
    have hDiff : pyEndswith (m ++ "_Diff") "_Diff" = true :=
      pyEndswith_append_self m "_Diff"
    simp [List.filter_cons, hCog, hPbi, hDiff]

/-- With no dimension name ending in `_Diff`, the summary's selected
columns are exactly the measure diff columns. -/
theorem diffCols_of_no_dim_suffix (dims ms : List String)
    (hdim : ∀ d ∈ dims, pyEndswith d "_Diff" = false) :
    (reportColumns dims ms).filter (fun c => pyEndswith c "_Diff") =
      ms.map (fun m => m ++ "_Diff") := by
  rw [reportColumns]
  rw [List.filter_append, List.filter_append, List.filter_append]
  have h1 : ["unique_key"].filter (fun c => pyEndswith c "_Diff") = [] := by decide
  have h2 : dims.filter (fun c => pyEndswith c "_Diff") = [] := by
    rw [List.filter_eq_nil_iff]
    intro d hd
    rw [hdim d hd]
    simp
  have h3 : ["presence"].filter (fun c => pyEndswith c "_Diff") = [] := by decide
  rw [h1, h2, h3, filter_triple_cols]
  simp

/-- A lookup whose key occurs (as a key) exactly once returns that
binding. -/
theorem lookup_eq_of_unique (l : List (String × ColRef)) (k : String) (v : ColRef)
    (hm : (k, v) ∈ l) (hu : ∀ p ∈ l, p.1 = k → p = (k, v)) :
    List.lookup k l = some v := by
  induction l with
  | nil => cases hm
  | cons p rest ih =>
    obtain ⟨k', v'⟩ := p
    rw [List.lookup_cons]
    by_cases he : k = k'
    · have hp : (k', v') = (k, v) := hu (k', v') (List.mem_cons_self _ _) he.symm
      rw [Prod.mk.injEq] at hp
      simp only [he, beq_self_eq_true]
      rw [hp.2]
    · have hne : (k == k') = false := beq_eq_false_iff_ne.mpr he
      rw [hne]
      apply ih
      · rcases List.mem_cons.mp hm with hh | ht
        · rw [Prod.mk.injEq] at hh
          exact absurd hh.1 he
        · exact ht
      · intro p hp hpk
        exact hu p (List.mem_cons_of_mem _ hp) hpk

/-- Name resolution of a measure's `_Diff` column: under distinct measure
names and no `_Diff`-suffixed dimension name, the name `m_Diff` denotes the
diff column of measure number `i`. -/
theorem resolveCol_mdiff (dims ms : List String) (i : Nat) (m : String)
    (hnd : ms.Nodup) (hdim : ∀ d ∈ dims, pyEndswith d "_Diff" = false)
    (him : (i, m) ∈ ms.enum) :
    resolveCol dims ms (m ++ "_Diff") = some (ColRef.cmdiff i) := by
  rw [resolveCol]
  apply lookup_eq_of_unique
  · rw [List.mem_reverse, assignmentList]
    apply List.mem_append.mpr
    right
    exact List.mem_flatMap.mpr ⟨(i, m), him, by simp⟩
  · intro p hp hpk
    rw [List.mem_reverse, assignmentList] at hp
    have hdiffend : pyEndswith (m ++ "_Diff") "_Diff" = true :=
      pyEndswith_append_self m "_Diff"
    rcases List.mem_append.mp hp with hp3 | hpD0
    rcases List.mem_append.mp hp3 with hp1 | hpC0
    rcases List.mem_append.mp hp1 with hpA | hpB
    · rw [List.mem_singleton] at hpA
      rw [hpA] at hpk
      exact absurd hpk.symm
        (append_ne_const_of_getLast_ne m "_Diff" "unique_key" (by decide) (by decide))
    · rw [List.mem_map] at hpB
      obtain ⟨q, hq, hqe⟩ := hpB
      have hq2 : q.2 ∈ dims := by
        have hg := (List.mk_mem_enum_iff_getElem? (l := dims)).mp
          (show (q.1, q.2) ∈ dims.enum from hq)
        exact List.getElem?_mem hg
      rw [← hqe] at hpk
      have hqd : pyEndswith q.2 "_Diff" = true := by
        rw [show q.2 = m ++ "_Diff" from hpk]
        exact hdiffend
      rw [hdim q.2 hq2] at hqd
      cases hqd
    · rw [List.mem_singleton] at hpC0
      rw [hpC0] at hpk
      exact absurd hpk.symm
        (append_ne_const_of_getLast_ne m "_Diff" "presence" (by decide) (by decide))
    · rw [List.mem_flatMap] at hpD0
      obtain ⟨q, hq, hqe⟩ := hpD0
      rcases List.mem_cons.mp hqe with h1 | hqe2
      · rw [h1] at hpk
        exact absurd hpk.symm
          (append_ne_append_of_getLast_ne m q.2 "_Diff" "_Cognos" (by decide) (by decide)
            (by decide))
      rcases List.mem_cons.mp hqe2 with h2 | hqe3
      · rw [h2] at hpk
        exact absurd hpk.symm
          (append_ne_append_of_getLast_ne m q.2 "_Diff" "_PBI" (by decide) (by decide)
            (by decide))
      rcases List.mem_cons.mp hqe3 with h3 | hqe4
      · have hqm : q.2 = m := by
          apply str_append_cancel q.2 m "_Diff"
          rw [show q.2 ++ "_Diff" = p.1 from by rw [h3]]
          exact hpk
        have hgq : ms[q.1]? = some m := by
          rw [← hqm]
          exact (List.mk_mem_enum_iff_getElem? (l := ms)).mp
            (show (q.1, q.2) ∈ ms.enum from hq)
        have hgi : ms[i]? = some m := (List.mk_mem_enum_iff_getElem? (l := ms)).mp him
        have hiq : q.1 = i := by
          apply List.getElem?_inj _ hnd (hgq.trans hgi.symm)
          obtain ⟨hlt, _⟩ := List.getElem?_eq_some_iff.mp hgq
          exact hlt
        rw [h3, hqm, hiq]
      · cases hqe4

/-- The name `m_Diff` reads the diff column of measure number `i`. -/
theorem colValues_mdiff (rep : Report) (i : Nat) (m : String)
    (hnd : rep.measures.Nodup)
    (hdim : ∀ d ∈ rep.dims, pyEndswith d "_Diff" = false)
    (him : (i, m) ∈ rep.measures.enum) :
    colValues rep (m ++ "_Diff") =
      rep.rows.map (fun r => Value.vNum (r.meas.getD i default).diff) := by
  rw [colValues, resolveCol_mdiff rep.dims rep.measures i m hnd hdim him]
  rfl

theorem foldl_pyAdd_nums {β : Type} (xs : List β) (f : β → Int) (a : Int) :
    (xs.map (fun x => Value.vNum (f x))).foldl
      (fun acc w => acc.bind (fun v => pyAdd v w)) (some (.vNum a)) =
      some (.vNum (a + (xs.map f).sum)) := by
  induction xs generalizing a with
  | nil => simp
  | cons x xs ih =>
    simp only [List.map_cons, List.foldl_cons, List.sum_cons]
    rw [show (some (Value.vNum a)).bind (fun v => pyAdd v (Value.vNum (f x))) =
        some (Value.vNum (a + f x)) from rfl]
    rw [ih, Int.add_assoc]

/-- pandas sum of an all-numeric column is the numeric sum. -/
theorem pySum_map_vNum {β : Type} (l : List β) (f : β → Int) :
    pySum (l.map (fun x => Value.vNum (f x))) = some (.vNum ((l.map f).sum)) := by
  rw [pySum]
  have hfil : (l.map (fun x => Value.vNum (f x))).filter
      (fun v => decide (v ≠ Value.vNull)) = l.map (fun x => Value.vNum (f x)) := by
    rw [List.filter_eq_self]
    intro v hv
    rw [List.mem_map] at hv
    obtain ⟨x, _, hx⟩ := hv
    rw [← hx]
    simp
  rw [hfil]
  cases l with
  | nil => rfl
  | cons x xs =>
    simp only [List.map_cons, List.sum_cons]
    exact foldl_pyAdd_nums xs f (f x)

/-- `mapM` over a mapped list, when every element succeeds. -/
theorem mapM_map_eq_some {α β γ : Type} (l : List α) (g : α → β) (f : β → Option γ)
    (h : α → γ) (hall : ∀ x ∈ l, f (g x) = some (h x)) :
    (l.map g).mapM f = some (l.map h) := by
  induction l with
  | nil => rfl
  | cons x xs ih =>
    rw [List.map_cons, List.mapM_cons, hall x (List.mem_cons_self _ _),
      ih (fun y hy => hall y (List.mem_cons_of_mem _ hy))]
    rfl

/-- C5 (amended): for every report none of whose dimension names ends in
`_Diff` and whose measure names are distinct, the summary has exactly one
row per measure — named `m_Diff`, valued at the numeric sum of that
measure's Diff column — followed by the completeness row, whose value is
`"Yes"` exactly when every report row is `"Present in Both"`. -/
theorem C5_diff_checker_amended (rep : Report) (hnd : rep.measures.Nodup)
    (hdim : ∀ d ∈ rep.dims, pyEndswith d "_Diff" = false) :
    generate_diff_checker rep =
      some ((rep.measures.enum.map (fun p => (p.2 ++ "_Diff",
          Value.vNum ((rep.rows.map (fun r => (r.meas.getD p.1 default).diff)).sum)))) ++
        [("All rows present in both",
          Value.vStr (if rep.rows.all (fun r => r.presence = "Present in Both")
                      then "Yes" else "No"))]) ∧
    ((if rep.rows.all (fun r => r.presence = "Present in Both")
        then ("Yes" : String) else "No") = "Yes" ↔
      ∀ r ∈ rep.rows, r.presence = "Present in Both") := by
  constructor
  · simp only [generate_diff_checker]
    rw [diffCols_of_no_dim_suffix rep.dims rep.measures hdim]
    have hmap : rep.measures.enum.map (fun p => p.2 ++ "_Diff") =
        rep.measures.map (fun m => m ++ "_Diff") := by
      conv_rhs => rw [← List.enum_map_snd rep.measures]
      rw [List.map_map]
      rfl
    rw [← hmap]
    rw [mapM_map_eq_some rep.measures.enum (fun p => p.2 ++ "_Diff")
      (fun c => (pySum (colValues rep c)).map (fun s => (c, s)))
      (fun p => (p.2 ++ "_Diff",
        Value.vNum ((rep.rows.map (fun r => (r.meas.getD p.1 default).diff)).sum)))
      ?_]
    · rfl
    · intro p hp
      obtain ⟨i, m⟩ := p
      show (pySum (colValues rep (m ++ "_Diff"))).map (fun s => (m ++ "_Diff", s)) =
        some (m ++ "_Diff",
          Value.vNum ((rep.rows.map (fun r => (r.meas.getD i default).diff)).sum))
      rw [colValues_mdiff rep i m hnd hdim hp, pySum_map_vNum]
      rfl
  · by_cases hb : rep.rows.all (fun r => r.presence = "Present in Both") = true
    · rw [if_pos hb]
      simp only [List.all_eq_true, decide_eq_true_iff] at hb
      exact ⟨fun _ => hb, fun _ => rfl⟩
    · rw [if_neg hb]
      constructor
      · intro hc
        exact absurd hc (by decide)
      · intro hall
        exact absurd (by
          rw [List.all_eq_true]
          intro r hr
          exact decide_eq_true (hall r hr)) hb

/-- SOURCE frame whose dimension column is named `x_Diff`. -/
def c5Cognos : DataFrame :=
  ⟨[("x_Diff", .obj), ("Sales", .num)], [[.vStr "a", .vNum 10]]⟩

/-- TARGET frame paired with `c5Cognos`. -/
def c5Pbi : DataFrame :=
  ⟨[("x_Diff", .obj), ("Sales", .num)], [[.vStr "a", .vNum 7]]⟩

/-- The pipeline output on the `x_Diff` frames. -/
def c5Out : ValidationOutput :=
  (generate_validation_report c5Cognos c5Pbi).toOption.getD default

/-- C5 counterexample: on a report whose single dimension is named
`x_Diff`, the summary has a row for the dimension column (its string
"sum") besides the one measure's row and the trailing row — three rows,
not one-per-measure plus one. -/
theorem C5_counterexample :
    generate_validation_report c5Cognos c5Pbi = .ok c5Out ∧
    c5Out.report.measures = ["Sales"] ∧
    generate_diff_checker c5Out.report =
      some [("x_Diff", .vStr "a"), ("Sales_Diff", .vNum (-3)),
            ("All rows present in both", .vStr "Yes")] ∧
    (generate_diff_checker c5Out.report).map List.length ≠
      some (c5Out.report.measures.length + 1) :=
  ⟨rfl, by decide, by decide, by decide⟩

/-- C5 witness: the amended summary theorem applied to the example
report (dimension `Region`, measure `Sales`). -/
theorem C5_witness :
    (generate_diff_checker exOut.report =
      some ((exOut.report.measures.enum.map (fun p => (p.2 ++ "_Diff",
          Value.vNum ((exOut.report.rows.map
            (fun r => (r.meas.getD p.1 default).diff)).sum)))) ++
        [("All rows present in both",
          Value.vStr (if exOut.report.rows.all (fun r => r.presence = "Present in Both")
                      then "Yes" else "No"))])) ∧
    ((if exOut.report.rows.all (fun r => r.presence = "Present in Both")
        then ("Yes" : String) else "No") = "Yes" ↔
      ∀ r ∈ exOut.report.rows, r.presence = "Present in Both") :=
  C5_diff_checker_amended exOut.report (by decide) (by decide)
